import Mathlib

/-!
A verification development for the static-site-generator's Markdown→HTML
core.  Strings are modelled as `List Char` (`Str`); each definition below
is a direct translation of the corresponding Python function from
`src/block_markdown.py`, `src/inline_markdown.py` and
`src/generate_page.py`, except for the HTML node tree and its
serialization (`htmlnode.py` is not part of the sources; it is modelled
from the specification, see `HTMLNode`).
-/

set_option maxHeartbeats 1000000

abbrev Str : Type := List Char

/-- Chars stripped by Python's `str.strip()` (ASCII whitespace). -/
def isSpaceChar : Char → Bool
  | ' ' | '\t' | '\n' | '\r' | '\x0b' | '\x0c' => true
  | _ => false

/-- Python `s.strip()`: drop leading and trailing whitespace. -/
def pyStrip (s : Str) : Str :=
  ((s.dropWhile isSpaceChar).reverse.dropWhile isSpaceChar).reverse

/-- Python `s.startswith(p)`. -/
def startsWith : Str → Str → Bool
  | [], _ => true
  | _ :: _, [] => false
  | p :: ps, c :: cs => if p = c then startsWith ps cs else false

/-- Python `s.endswith(p)`. -/
def endsWith (p s : Str) : Bool :=
  startsWith p.reverse s.reverse

/-- Worker for Python `s.split(sep)` with a non-empty separator
`d :: ds`: scan left to right, cut at each non-overlapping occurrence. -/
def splitOnGo (d : Char) (ds : Str) : Str → Str → List Str
  | [], acc => [acc.reverse]
  | c :: rest, acc =>
    if startsWith (d :: ds) (c :: rest) then
      acc.reverse :: splitOnGo d ds (rest.drop ds.length) []
    else
      splitOnGo d ds rest (c :: acc)
  termination_by s _ => s.length
  decreasing_by all_goals (simp_wf; try omega)

/-- Python `s.split(sep)` for a non-empty `sep` (the empty-separator
case raises in Python and is never used here). -/
def pySplit (s sep : Str) : List Str :=
  match sep with
  | [] => [s]
  | d :: ds => splitOnGo d ds s []

/-- Worker for Python `s.split(sep, 1)`: cut at the first occurrence
of the (non-empty) separator only. -/
def splitOnceGo (d : Char) (ds : Str) : Str → Str → List Str
  | [], acc => [acc.reverse]
  | c :: rest, acc =>
    if startsWith (d :: ds) (c :: rest) then
      [acc.reverse, rest.drop ds.length]
    else
      splitOnceGo d ds rest (c :: acc)

/-- Python `s.split(sep, 1)` for a non-empty `sep`. -/
def pySplitOnce (s sep : Str) : List Str :=
  match sep with
  | [] => [s]
  | d :: ds => splitOnceGo d ds s []

/-- Number of non-overlapping occurrences of the pattern `d :: ds` in a
string, scanning left to right (the count Python's `s.count(sep)` or a
split-length comparison would give). -/
def countOccGo (d : Char) (ds : Str) : Str → Nat
  | [] => 0
  | c :: rest =>
    if startsWith (d :: ds) (c :: rest) then
      countOccGo d ds (rest.drop ds.length) + 1
    else
      countOccGo d ds rest
  termination_by s => s.length
  decreasing_by all_goals (simp_wf; try omega)

/-- Occurrence count of a non-empty pattern in a string. -/
def countOcc (sep s : Str) : Nat :=
  match sep with
  | [] => 0
  | d :: ds => countOccGo d ds s

/-- Decimal rendering of a natural number, as Python's f-string does. -/
def natStr (n : Nat) : Str :=
  (Nat.repr n).data

/-- `TextType` from `textnode.py` (the enum's members are fixed by its
uses in `inline_markdown.py` and the tests). -/
inductive TextType where
  | TEXT
  | BOLD
  | ITALIC
  | CODE
  | LINK
  | IMAGE
deriving DecidableEq, Repr

/-- `TextNode` from `textnode.py`: text, a `TextType`, and an optional
url (defaulting to `None`); equality is field-wise. -/
structure TextNode where
  text : Str
  textType : TextType
  url : Option Str := none
deriving DecidableEq, Repr

/-- `BlockType` from `block_markdown.py`. -/
inductive BlockType where
  | PARAGRAPH
  | HEADING
  | CODE
  | QUOTE
  | UNORDERED_LIST
  | ORDERED_LIST
deriving DecidableEq, Repr

/-- `markdown_to_blocks` from `block_markdown.py`: split on `"\n\n"`,
strip each unit, keep (in order) the units that are non-empty after
stripping. -/
def markdown_to_blocks (markdown : Str) : List Str :=
  (pySplit markdown ("\n\n").data).foldl
    (fun result block =>
      let stripped := pyStrip block
      if stripped ≠ [] then result ++ [stripped] else result)
    []

/-- The heading test of `block_to_block_type`: the block starts with
`"#"`, and with `"#" * i + " "` for some `i` in `range(1, 7)`. -/
def heading_check (block : Str) : Bool :=
  startsWith ("#").data block &&
    (List.range' 1 6).any fun i =>
      startsWith (List.replicate i '#' ++ (" ").data) block

/-- The ordered-list test of `block_to_block_type`: line `i` (0-indexed,
counting from `i0`) starts with `f"{i + 1}. "`. -/
def ol_check : List Str → Nat → Bool
  | [], _ => true
  | l :: ls, i => startsWith (natStr (i + 1) ++ (". ").data) l && ol_check ls (i + 1)

/-- `block_to_block_type` from `block_markdown.py`, testing the block
kinds in source order. -/
def block_to_block_type (block : Str) : BlockType :=
  let lines := pySplit block ("\n").data
  if heading_check block then .HEADING
  else if startsWith ("```").data block && endsWith ("```").data block then .CODE
  else if lines.all (fun line => startsWith (">").data line) then .QUOTE
  else if lines.all (fun line => startsWith ("- ").data line) then .UNORDERED_LIST
  else if ol_check lines 0 then .ORDERED_LIST
  else .PARAGRAPH

/-- Helper for the regexes of `inline_markdown.py`: after an opening
`[`, match `[^\x5b\x5d]*` then `](` then `[^()]*` then `)`, returning
the label, the url and the remainder of the string.  (Because each
character class excludes the closing character, the greedy regex match
is deterministic and equals this takeWhile-based scan.) -/
def scanLinkBody (s : Str) : Option (Str × Str × Str) :=
  let label := s.takeWhile fun c => decide (c ≠ '[' ∧ c ≠ ']')
  match s.dropWhile (fun c => decide (c ≠ '[' ∧ c ≠ ']')) with
  | ']' :: '(' :: afterParen =>
    let url := afterParen.takeWhile fun c => decide (c ≠ '(' ∧ c ≠ ')')
    match afterParen.dropWhile (fun c => decide (c ≠ '(' ∧ c ≠ ')')) with
    | ')' :: rem => some (label, url, rem)
    | _ => none
  | _ => none

/-- Fuel-indexed worker for `extract_markdown_images`: at each position
either match `!\x5b...` (and resume after the match) or advance one
character.  Every step consumes at least one character of the string
(a successful match consumes at least five), so the wrapper's
`s.length + 1` units of fuel are never exhausted; the fuel only makes
the recursion structural. -/
def extractImagesGo : Nat → Str → List (Str × Str)
  | 0, _ => []
  | _ + 1, [] => []
  | fuel + 1, '!' :: '[' :: rest =>
    match scanLinkBody rest with
    | some (alt, url, rem) => (alt, url) :: extractImagesGo fuel rem
    | none => extractImagesGo fuel ('[' :: rest)
  | fuel + 1, _ :: rest => extractImagesGo fuel rest

/-- `extract_markdown_images` from `inline_markdown.py`: all matches of
`!\x5b([^\x5b\x5d]*)\x5d\(([^()]*)\)` in order, as (alt, url) pairs,
scanning left to right and resuming after each match. -/
def extract_markdown_images (s : Str) : List (Str × Str) :=
  extractImagesGo (s.length + 1) s

/-- Fuel-indexed worker for `extract_markdown_links`: like the image
scan but the opening `\x5b` must not be preceded by `!` (the regex's
negative lookbehind), so the previously scanned character is threaded
through.  As with `extractImagesGo`, the wrapper's fuel is never
exhausted. -/
def extractLinksGo : Nat → Option Char → Str → List (Str × Str)
  | 0, _, _ => []
  | _ + 1, _, [] => []
  | fuel + 1, prev, '[' :: rest =>
    if prev = some '!' then extractLinksGo fuel (some '[') rest
    else
      match scanLinkBody rest with
      | some (label, url, rem) => (label, url) :: extractLinksGo fuel (some ')') rem
      | none => extractLinksGo fuel (some '[') rest
  | fuel + 1, _, c :: rest => extractLinksGo fuel (some c) rest

/-- `extract_markdown_links` from `inline_markdown.py`: all matches of
`(?<"?"!)\x5b([^\x5b\x5d]*)\x5d\(([^()]*)\)` in order. -/
def extract_markdown_links (s : Str) : List (Str × Str) :=
  extractLinksGo (s.length + 1) none s

/-- The section-to-node loop of `split_nodes_delimiter`: fragment `i`
becomes a `TEXT` node when `i` is even and a `text_type` node when `i`
is odd; empty fragments are skipped. -/
def sectionsToNodes (text_type : TextType) : List Str → Nat → List TextNode
  | [], _ => []
  | s :: rest, i =>
    (if s = [] then []
     else [{ text := s, textType := if i % 2 = 0 then TextType.TEXT else text_type }]) ++
    sectionsToNodes text_type rest (i + 1)

/-- The per-node body of `split_nodes_delimiter`: non-`TEXT` nodes pass
through; a `TEXT` node's text is split on the delimiter, an even number
of sections (odd number of delimiters) is an error, and the sections
alternate `TEXT`/`text_type` starting with `TEXT`. -/
def split_node_delimiter (delimiter : Str) (text_type : TextType) (node : TextNode) :
    Except String (List TextNode) :=
  if node.textType ≠ TextType.TEXT then .ok [node]
  else
    let sections := pySplit node.text delimiter
    if sections.length % 2 = 0 then
      .error ("Invalid markdown: no closing delimiter found")
    else
      .ok (sectionsToNodes text_type sections 0)

/-- `split_nodes_delimiter` from `inline_markdown.py`, over the node
list (the Python loop raises at the first offending node, returning no
partial result). -/
def split_nodes_delimiter : List TextNode → Str → TextType → Except String (List TextNode)
  | [], _, _ => .ok []
  | node :: rest, delimiter, text_type => do
    let first ← split_node_delimiter delimiter text_type node
    let more ← split_nodes_delimiter rest delimiter text_type
    pure (first ++ more)

/-- The match-consuming loop of `split_nodes_image`: for each extracted
(alt, url) pair in order, split the remaining text once on the exact
matched image markup, emit the preceding text (if non-empty) and the
image node, and continue on the remainder; leftover text (if non-empty)
becomes a final `TEXT` node. -/
def split_images_go : Str → List (Str × Str) → List TextNode
  | remaining, [] => if remaining ≠ [] then [{ text := remaining, textType := .TEXT }] else []
  | remaining, (alt, url) :: more =>
    let sections := pySplitOnce remaining
      (("![").data ++ alt ++ ("](").data ++ url ++ (")").data)
    let pre := sections.headD []
    let rest := if sections.length > 1 then sections.getD 1 [] else []
    (if pre ≠ [] then [{ text := pre, textType := .TEXT }] else []) ++
      [{ text := alt, textType := .IMAGE, url := some url }] ++ split_images_go rest more

/-- The per-node body of `split_nodes_image`. -/
def split_nodes_image_node (node : TextNode) : List TextNode :=
  if node.textType ≠ TextType.TEXT then [node]
  else
    let images := extract_markdown_images node.text
    if images = [] then [node]
    else split_images_go node.text images

/-- `split_nodes_image` from `inline_markdown.py`. -/
def split_nodes_image : List TextNode → List TextNode
  | [] => []
  | node :: rest => split_nodes_image_node node ++ split_nodes_image rest

/-- The match-consuming loop of `split_nodes_link`, identical to the
image loop but splitting on `[label](url)`. -/
def split_links_go : Str → List (Str × Str) → List TextNode
  | remaining, [] => if remaining ≠ [] then [{ text := remaining, textType := .TEXT }] else []
  | remaining, (label, url) :: more =>
    let sections := pySplitOnce remaining
      (("[").data ++ label ++ ("](").data ++ url ++ (")").data)
    let pre := sections.headD []
    let rest := if sections.length > 1 then sections.getD 1 [] else []
    (if pre ≠ [] then [{ text := pre, textType := .TEXT }] else []) ++
      [{ text := label, textType := .LINK, url := some url }] ++ split_links_go rest more

/-- The per-node body of `split_nodes_link`. -/
def split_nodes_link_node (node : TextNode) : List TextNode :=
  if node.textType ≠ TextType.TEXT then [node]
  else
    let links := extract_markdown_links node.text
    if links = [] then [node]
    else split_links_go node.text links

/-- `split_nodes_link` from `inline_markdown.py`. -/
def split_nodes_link : List TextNode → List TextNode
  | [] => []
  | node :: rest => split_nodes_link_node node ++ split_nodes_link rest

/-- `text_to_textnodes` from `inline_markdown.py`: the fixed pipeline of
passes — bold, italic, code, images, links — starting from one `TEXT`
node holding the whole text. -/
def text_to_textnodes (text : Str) : Except String (List TextNode) := do
  let nodes := [({ text := text, textType := .TEXT } : TextNode)]
  let nodes ← split_nodes_delimiter nodes ("**").data TextType.BOLD
  let nodes ← split_nodes_delimiter nodes ("_").data TextType.ITALIC
  let nodes ← split_nodes_delimiter nodes ("`").data TextType.CODE
  let nodes := split_nodes_image nodes
  let nodes := split_nodes_link nodes
  pure nodes

/-- Modelled from the spec: `htmlnode.py` (the `HTMLNode` base class and
its `LeafNode`/`ParentNode` variants) is not among the sources, so the
HTML node tree is taken from the specification's data model: a Leaf
carries an optional tag, an optional text value (absent is a
serialization error) and attributes; a Parent carries an optional tag
(absent is a serialization error), an optional ordered children
sequence (absent — as opposed to empty — is a serialization error) and
attributes.  Attributes are an insertion-ordered key/value sequence. -/
inductive HTMLNode where
  | leaf (tag : Option Str) (value : Option Str) (props : List (Str × Str))
  | parent (tag : Option Str) (children : Option (List HTMLNode)) (props : List (Str × Str))

/-- `LeafNode(tag, value, props=None)`. -/
def LeafNode (tag : Option Str) (value : Option Str)
    (props : List (Str × Str) := []) : HTMLNode :=
  .leaf tag value props

/-- `ParentNode(tag, children, props=None)`. -/
def ParentNode (tag : Option Str) (children : Option (List HTMLNode))
    (props : List (Str × Str) := []) : HTMLNode :=
  .parent tag children props

/-- Modelled from the spec: attribute rendering — for each key/value
pair, a space, the key, `="`, the value, `"`, in sequence order. -/
def props_to_html (props : List (Str × Str)) : Str :=
  props.foldl
    (fun acc kv => acc ++ (" ").data ++ kv.1 ++ ("=\x22").data ++ kv.2 ++ ("\x22").data)
    []

mutual

/-- Modelled from the spec: `serialize()`.  A Leaf without a value, a
Parent without a tag and a Parent without a children sequence fail; a
tagless Leaf emits its value verbatim; otherwise
`<tag attrs>body</tag>` with the children's serializations concatenated
in order with no separators. -/
def toHtml : HTMLNode → Except String Str
  | .leaf _ none _ => .error ("LeafNode requires a value")
  | .leaf none (some v) _ => .ok v
  | .leaf (some t) (some v) props =>
    .ok (("<").data ++ t ++ props_to_html props ++ (">").data ++ v ++
      ("</").data ++ t ++ (">").data)
  | .parent none _ _ => .error ("ParentNode requires a tag")
  | .parent (some _) none _ => .error ("ParentNode requires children")
  | .parent (some t) (some children) props => do
    let inner ← childrenToHtml children
    pure (("<").data ++ t ++ props_to_html props ++ (">").data ++ inner ++
      ("</").data ++ t ++ (">").data)

/-- Serialize a child list in order, concatenating the results. -/
def childrenToHtml : List HTMLNode → Except String Str
  | [] => .ok []
  | c :: cs => do
    let h ← toHtml c
    let hs ← childrenToHtml cs
    pure (h ++ hs)

end

/-- Python's rendering of an optional string into an f-string or dict
value: `None` prints as `"None"`. -/
def pyOptStr : Option Str → Str
  | some s => s
  | none => ("None").data

/-- `text_node_to_html_node` from `inline_markdown.py` (this is the
version the block builders import): maps each `TextType` to its leaf. -/
def text_node_to_html_node (text_node : TextNode) : HTMLNode :=
  match text_node.textType with
  | .TEXT => LeafNode none (some text_node.text)
  | .BOLD => LeafNode (some (("b").data)) (some text_node.text)
  | .ITALIC => LeafNode (some (("i").data)) (some text_node.text)
  | .CODE => LeafNode (some (("code").data)) (some text_node.text)
  | .LINK => LeafNode (some (("a").data)) (some text_node.text)
      [((("href").data), pyOptStr text_node.url)]
  | .IMAGE => LeafNode (some (("img").data)) (some [])
      [((("src").data), pyOptStr text_node.url), ((("alt").data), text_node.text)]

/-- `text_to_children` from `block_markdown.py`: resolve the text's
inline spans and map each to its HTML leaf. -/
def text_to_children (text : Str) : Except String (List HTMLNode) := do
  let text_nodes ← text_to_textnodes text
  pure (text_nodes.map text_node_to_html_node)

/-- `paragraph_to_html_node` from `block_markdown.py`. -/
def paragraph_to_html_node (block : Str) : Except String HTMLNode := do
  let lines := pySplit block ("\n").data
  let paragraph_text := List.intercalate ((" ").data) lines
  let children ← text_to_children paragraph_text
  pure (ParentNode (some (("p").data)) (some children))

/-- `heading_to_html_node` from `block_markdown.py`: count the leading
`#`s, resolve everything after them and the following space, wrap in
`h{level}`. -/
def heading_to_html_node (block : Str) : Except String HTMLNode := do
  let level := (block.takeWhile fun c => decide (c = '#')).length
  let heading_text := block.drop (level + 1)
  let children ← text_to_children heading_text
  pure (ParentNode (some (("h").data ++ natStr level)) (some children))

/-- `code_to_html_node` from `block_markdown.py`: drop the first and
last lines, join with newline, append a trailing newline when
non-empty, and wrap the raw text (no inline resolution) in
`pre`/`code`. -/
def code_to_html_node (block : Str) : HTMLNode :=
  let lines := pySplit block ("\n").data
  let code_lines := (lines.drop 1).dropLast
  let code_text := List.intercalate (("\n").data) code_lines
  let code_text := if code_text ≠ [] then code_text ++ ("\n").data else code_text
  let code_node := LeafNode none (some code_text)
  ParentNode (some (("pre").data))
    (some [ParentNode (some (("code").data)) (some [code_node])])

/-- `quote_to_html_node` from `block_markdown.py`. -/
def quote_to_html_node (block : Str) : Except String HTMLNode := do
  let lines := pySplit block ("\n").data
  let stripped_lines := lines.map fun line =>
    if startsWith ((">").data) line then (line.drop 1).dropWhile isSpaceChar else line
  let quote_text := List.intercalate ((" ").data) stripped_lines
  let children ← text_to_children quote_text
  pure (ParentNode (some (("blockquote").data)) (some children))

/-- The item loop of `unordered_list_to_html_node`: each line minus its
2-character `- ` prefix becomes an inline-resolved `li`. -/
def ul_items : List Str → Except String (List HTMLNode)
  | [] => pure []
  | line :: rest => do
    let children ← text_to_children (line.drop 2)
    let more ← ul_items rest
    pure (ParentNode (some (("li").data)) (some children) :: more)

/-- `unordered_list_to_html_node` from `block_markdown.py`. -/
def unordered_list_to_html_node (block : Str) : Except String HTMLNode := do
  let items ← ul_items (pySplit block ("\n").data)
  pure (ParentNode (some (("ul").data)) (some items))

/-- The item loop of `ordered_list_to_html_node`: line `i` minus its
`f"{i + 1}. "` prefix becomes an inline-resolved `li`. -/
def ol_items : List Str → Nat → Except String (List HTMLNode)
  | [], _ => pure []
  | line :: rest, i => do
    let prefixLen := (natStr (i + 1) ++ (". ").data).length
    let children ← text_to_children (line.drop prefixLen)
    let more ← ol_items rest (i + 1)
    pure (ParentNode (some (("li").data)) (some children) :: more)

/-- `ordered_list_to_html_node` from `block_markdown.py`. -/
def ordered_list_to_html_node (block : Str) : Except String HTMLNode := do
  let items ← ol_items (pySplit block ("\n").data) 0
  pure (ParentNode (some (("ol").data)) (some items))

/-- `block_to_html_node` from `block_markdown.py`: dispatch on the
classified block type (the Python `else: raise` branch is unreachable —
the enum match is exhaustive). -/
def block_to_html_node (block : Str) : Except String HTMLNode :=
  match block_to_block_type block with
  | .PARAGRAPH => paragraph_to_html_node block
  | .HEADING => heading_to_html_node block
  | .CODE => pure (code_to_html_node block)
  | .QUOTE => quote_to_html_node block
  | .UNORDERED_LIST => unordered_list_to_html_node block
  | .ORDERED_LIST => ordered_list_to_html_node block

/-- The block loop of `markdown_to_html_node`. -/
def build_blocks : List Str → Except String (List HTMLNode)
  | [] => pure []
  | block :: rest => do
    let node ← block_to_html_node block
    let more ← build_blocks rest
    pure (node :: more)

/-- `markdown_to_html_node` from `block_markdown.py`: one `div` parent
holding every block's subtree in order. -/
def markdown_to_html_node (markdown : Str) : Except String HTMLNode := do
  let block_nodes ← build_blocks (markdown_to_blocks markdown)
  pure (ParentNode (some (("div").data)) (some block_nodes))

/-- The line scan of `extract_title` from `generate_page.py`. -/
def extract_title_go : List Str → Except String Str
  | [] => .error ("No h1 header found in markdown")
  | line :: rest =>
    if startsWith (("# ").data) line then .ok (pyStrip (line.drop 2))
    else extract_title_go rest

/-- `extract_title` from `generate_page.py`: the text after the first
line starting with `"# "`, stripped; an error when no line matches. -/
def extract_title (markdown : Str) : Except String Str :=
  extract_title_go (pySplit markdown ("\n").data)


/-! ### Basic facts about the string helpers -/

theorem startsWith_eq_true_iff (p s : Str) : startsWith p s = true ↔ p <+: s := by
  induction p generalizing s with
  | nil => simp [startsWith]
  | cons a ps ih =>
    cases s with
    | nil => simp [startsWith]
    | cons c cs =>
      by_cases h : a = c
      · subst h
        simp [startsWith, List.cons_prefix_cons, ih]
      · simp [startsWith, List.cons_prefix_cons, h]

theorem startsWith_append_left (p t : Str) : startsWith p (p ++ t) = true :=
  (startsWith_eq_true_iff p (p ++ t)).mpr ⟨t, rfl⟩

theorem startsWith_append_same (a p s : Str) :
    startsWith (a ++ p) (a ++ s) = startsWith p s := by
  induction a with
  | nil => rfl
  | cons c cs ih => simp [startsWith, ih]

theorem splitOnGo_single_head (d : Char) (s : Str) : ∀ acc : Str,
    ∃ t, splitOnGo d [] s acc =
      (acc.reverse ++ s.takeWhile fun c => decide (c ≠ d)) :: t := by
  induction s with
  | nil => exact fun acc => ⟨[], by simp [splitOnGo]⟩
  | cons c rest ih =>
    intro acc
    by_cases h : d = c
    · subst h
      refine ⟨splitOnGo d [] rest [], ?_⟩
      simp [splitOnGo, startsWith, List.takeWhile_cons]
    · obtain ⟨t, ht⟩ := ih (c :: acc)
      refine ⟨t, ?_⟩
      rw [splitOnGo]
      simp only [startsWith, if_neg h, List.takeWhile_cons]
      have hc : c ≠ d := fun hcd => h hcd.symm
      simp [ht, hc]

theorem splitOnGo_no_match (d : Char) (ds : Str) (s : Str) : ∀ acc : Str,
    ¬ (d :: ds) <:+: s → splitOnGo d ds s acc = [acc.reverse ++ s] := by
  induction s with
  | nil => intro acc _; simp [splitOnGo]
  | cons c rest ih =>
    intro acc h
    have hpre : ¬ (startsWith (d :: ds) (c :: rest) = true) := by
      intro hp
      obtain ⟨t, ht⟩ := (startsWith_eq_true_iff _ _).mp hp
      exact h ⟨[], t, by simpa using ht⟩
    rw [splitOnGo, if_neg hpre]
    have hrest : ¬ (d :: ds) <:+: rest := fun hi => h (List.infix_cons hi)
    rw [ih (c :: acc) hrest]
    simp

theorem splitOnGo_mem_aux (d : Char) (ds : Str) : ∀ (n : Nat) (s acc frag : Str),
    s.length ≤ n → frag ∈ splitOnGo d ds s acc → ∀ c ∈ frag, c ∈ acc.reverse ++ s := by
  intro n
  induction n with
  | zero =>
    intro s acc frag hn hfrag c hc
    have hs : s = [] := List.length_eq_zero.mp (Nat.le_zero.mp hn)
    subst hs
    simp [splitOnGo] at hfrag
    subst hfrag
    simpa using hc
  | succ n ih =>
    intro s acc frag hn hfrag c hc
    match s with
    | [] =>
      simp [splitOnGo] at hfrag
      subst hfrag
      simpa using hc
    | x :: rest =>
      rw [splitOnGo] at hfrag
      split at hfrag
      · rcases List.mem_cons.mp hfrag with h1 | h1
        · subst h1
          simp only [List.append_assoc, List.mem_append]
          left
          simpa using hc
        · have hlen : (rest.drop ds.length).length ≤ n := by
            have := List.length_drop ds.length rest
            simp only [List.length_cons] at hn
            omega
          have := ih (rest.drop ds.length) [] frag hlen h1 c hc
          simp only [List.reverse_nil, List.nil_append] at this
          have hsub : c ∈ rest := List.drop_subset _ _ this
          simp [hsub]
      · have hlen : rest.length ≤ n := by
          simp only [List.length_cons] at hn
          omega
        have := ih rest (x :: acc) frag hlen hfrag c hc
        simp only [List.reverse_cons, List.append_assoc] at this ⊢
        simpa using this

theorem splitOnGo_mem (d : Char) (ds : Str) (s acc frag : Str)
    (hfrag : frag ∈ splitOnGo d ds s acc) : ∀ c ∈ frag, c ∈ acc.reverse ++ s :=
  splitOnGo_mem_aux d ds s.length s acc frag le_rfl hfrag

theorem pyStrip_eq_nil_of_all_space {s : Str} (h : ∀ c ∈ s, isSpaceChar c) :
    pyStrip s = [] := by
  have h1 : s.dropWhile isSpaceChar = [] := List.dropWhile_eq_nil_iff.mpr h
  simp [pyStrip, h1]

theorem markdown_to_blocks_foldl (l : List Str) : ∀ r : List Str,
    l.foldl
      (fun result block => if pyStrip block = [] then result else result ++ [pyStrip block]) r
    = r ++ (l.map pyStrip).filter (fun b => decide (b ≠ [])) := by
  induction l with
  | nil => intro r; simp
  | cons b bs ih =>
    intro r
    by_cases h : pyStrip b = []
    · simp only [List.foldl_cons, if_pos h, ih, List.map_cons, List.filter_cons]
      simp [h]
    · simp only [List.foldl_cons, if_neg h, ih, List.map_cons, List.filter_cons]
      simp [h]

theorem markdown_to_blocks_eq (md : Str) :
    markdown_to_blocks md =
      ((pySplit md ("\n\n").data).map pyStrip).filter (fun b => decide (b ≠ [])) := by
  rw [markdown_to_blocks]
  have hf : (fun (result : List Str) (block : Str) =>
      let stripped := pyStrip block
      if stripped ≠ [] then result ++ [stripped] else result) =
      fun result block => if pyStrip block = [] then result else result ++ [pyStrip block] := by
    funext result block
    by_cases h : pyStrip block = [] <;> simp [h]
  rw [hf, markdown_to_blocks_foldl]
  simp

theorem pySplit_single_head (d : Char) (s : Str) :
    ∃ t, pySplit s [d] = (s.takeWhile fun c => decide (c ≠ d)) :: t := by
  obtain ⟨t, ht⟩ := splitOnGo_single_head d s []
  exact ⟨t, by simpa [pySplit] using ht⟩

theorem pySplit_no_match {d : Char} {ds s : Str} (h : ¬ (d :: ds) <:+: s) :
    pySplit s (d :: ds) = [s] := by
  simpa [pySplit] using splitOnGo_no_match d ds s [] h

theorem splitOnGo_length_aux (d : Char) (ds : Str) : ∀ (n : Nat) (s acc : Str),
    s.length ≤ n → (splitOnGo d ds s acc).length = countOccGo d ds s + 1 := by
  intro n
  induction n with
  | zero =>
    intro s acc hn
    have hs : s = [] := List.length_eq_zero.mp (Nat.le_zero.mp hn)
    subst hs
    simp [splitOnGo, countOccGo]
  | succ n ih =>
    intro s acc hn
    match s with
    | [] => simp [splitOnGo, countOccGo]
    | x :: rest =>
      simp only [List.length_cons] at hn
      rw [splitOnGo, countOccGo]
      by_cases h : startsWith (d :: ds) (x :: rest) = true
      · have hlen : (rest.drop ds.length).length ≤ n := by
          have := List.length_drop ds.length rest
          omega
        simp [h, ih _ [] hlen]
      · simp [h, ih rest (x :: acc) (by omega)]

theorem pySplit_length_eq_countOcc (d : Char) (ds : Str) (s : Str) :
    (pySplit s (d :: ds)).length = countOcc (d :: ds) s + 1 := by
  simpa [pySplit, countOcc] using splitOnGo_length_aux d ds s.length s [] le_rfl

theorem ol_check_iff (ls : List Str) : ∀ (k : Nat),
    ol_check ls k = true ↔
      ∀ (i : Nat) (h : i < ls.length),
        startsWith (natStr (k + i + 1) ++ (". ").data) (ls.get ⟨i, h⟩) = true := by
  induction ls with
  | nil => intro k; simp [ol_check]
  | cons l t ih =>
    intro k
    rw [ol_check, Bool.and_eq_true, ih (k + 1)]
    constructor
    · rintro ⟨h0, hrest⟩ i hi
      match i with
      | 0 => simpa using h0
      | i + 1 =>
        have harg : k + (i + 1) + 1 = k + 1 + i + 1 := by omega
        rw [harg]
        exact hrest i (by simpa using Nat.lt_of_succ_lt_succ hi)
    · intro hall
      refine ⟨by simpa using hall 0 (by simp), fun i hi => ?_⟩
      have harg : k + 1 + i + 1 = k + (i + 1) + 1 := by omega
      rw [harg]
      exact hall (i + 1) (by simpa using Nat.succ_lt_succ hi)

theorem extract_title_go_eq (ls : List Str) :
    extract_title_go ls =
      match ls.find? (fun l => startsWith (("# ").data) l) with
      | some l => .ok (pyStrip (l.drop 2))
      | none => .error ("No h1 header found in markdown") := by
  induction ls with
  | nil => rfl
  | cons l t ih =>
    rw [extract_title_go]
    by_cases h : startsWith (("# ").data) l = true
    · simp [List.find?_cons, h]
    · simp only [List.find?_cons, h, if_neg]
      simp only [Bool.not_eq_true] at h
      simp [h, ih]

theorem extractImagesGo_eq_nil : ∀ (fuel : Nat) (s : Str), '!' ∉ s →
    extractImagesGo fuel s = [] := by
  intro fuel
  induction fuel with
  | zero => intro s _; rfl
  | succ n ih =>
    intro s h
    match s with
    | [] => rfl
    | c :: rest =>
      have hc : c ≠ '!' := fun hcc => h (hcc ▸ List.mem_cons_self c rest)
      have hrest : '!' ∉ rest := fun hm => h (List.mem_cons_of_mem c hm)
      rw [extractImagesGo.eq_def]
      split
      · omega
      · simp_all
      · simp_all
      · rename_i heqf heqs
        injection heqs with h1 h2
        subst h1
        subst h2
        obtain rfl := Nat.succ.inj heqf
        exact ih rest hrest

theorem extractLinksGo_eq_nil : ∀ (fuel : Nat) (prev : Option Char) (s : Str), '[' ∉ s →
    extractLinksGo fuel prev s = [] := by
  intro fuel
  induction fuel with
  | zero => intro prev s _; rfl
  | succ n ih =>
    intro prev s h
    match s with
    | [] => rfl
    | c :: rest =>
      have hc : c ≠ '[' := fun hcc => h (hcc ▸ List.mem_cons_self c rest)
      have hrest : '[' ∉ rest := fun hm => h (List.mem_cons_of_mem c hm)
      rw [extractLinksGo.eq_def]
      split
      · omega
      · simp_all
      · simp_all
      · rename_i heqf heqs
        injection heqs with h1 h2
        subst h1
        subst h2
        obtain rfl := Nat.succ.inj heqf
        exact ih (some c) rest hrest

theorem natStr_one : natStr 1 = ['1'] := rfl

/-- A `split_node_delimiter` application on a `TEXT` node whose text
holds an odd number of delimiter occurrences is the unclosed-delimiter
error. -/
theorem split_node_delimiter_error (d : Char) (ds : Str) (tt : TextType) (node : TextNode)
    (htext : node.textType = TextType.TEXT)
    (hodd : countOcc (d :: ds) node.text % 2 = 1) :
    split_node_delimiter (d :: ds) tt node =
      .error ("Invalid markdown: no closing delimiter found") := by
  simp only [split_node_delimiter, htext, ne_eq, not_true_eq_false, if_false]
  rw [if_pos]
  have := pySplit_length_eq_countOcc d ds node.text
  omega

/-- `split_node_delimiter` has only one error. -/
theorem split_node_delimiter_error_msg {delimiter : Str} {tt : TextType} {node : TextNode}
    {e : String} (h : split_node_delimiter delimiter tt node = .error e) :
    e = "Invalid markdown: no closing delimiter found" := by
  simp only [split_node_delimiter] at h
  split at h
  · simp at h
  · split at h
    · injection h with h2
      exact h2.symm
    · simp at h

/-- C1: for every markdown string, `markdown_to_blocks` splits the text
on the exact two-character sequence `"\n\n"`, strips leading and
trailing whitespace from each resulting unit, discards every unit that
becomes empty after stripping, and returns the remaining units in their
original order. -/
theorem c1_markdown_to_blocks_spec (md : Str) :
    markdown_to_blocks md =
      ((pySplit md (("\n\n").data)).map pyStrip).filter (fun b => decide (b ≠ [])) :=
  markdown_to_blocks_eq md

/-- C7: `extract_title` scans the lines top-to-bottom, returns the
stripped text after `"# "` of the first line starting with `"# "`, and
errs exactly when no line of the document starts with `"# "`; in
particular `extract_title "## sub\n# Real"` returns `"Real"` and
`extract_title "no heading here"` fails. -/
theorem c7_extract_title_spec :
    (∀ md : Str,
      extract_title md =
        match (pySplit md (("\n").data)).find? (fun l => startsWith (("# ").data) l) with
        | some l => .ok (pyStrip (l.drop 2))
        | none => .error ("No h1 header found in markdown")) ∧
    extract_title (("## sub\n# Real").data) = .ok (("Real").data) ∧
    extract_title (("no heading here").data) = .error ("No h1 header found in markdown") := by
  refine ⟨fun md => extract_title_go_eq _, ?_, ?_⟩ <;>
    simp [extract_title, extract_title_go, pySplit, splitOnGo, startsWith, pyStrip, isSpaceChar]

/-- C4: a delimiter pass fails with the unclosed-delimiter error — and
returns no partial span sequence — whenever the delimiter occurs an odd
number of times in the text of any node still tagged `TEXT`; in
particular resolving `"a **b"` fails. -/
theorem c4_unclosed_delimiter_error (nodes : List TextNode) (delimiter : Str) (tt : TextType)
    (h : ∃ node ∈ nodes, node.textType = TextType.TEXT ∧
      countOcc delimiter node.text % 2 = 1) :
    split_nodes_delimiter nodes delimiter tt =
      .error ("Invalid markdown: no closing delimiter found") ∧
    text_to_textnodes (("a **b").data) =
      .error ("Invalid markdown: no closing delimiter found") := by
  constructor
  · rcases delimiter with _ | ⟨d, ds⟩
    · obtain ⟨bad, hmem, htext, hodd⟩ := h
      simp [countOcc] at hodd
    · obtain ⟨bad, hmem, htext, hodd⟩ := h
      induction nodes with
      | nil => cases hmem
      | cons n ns ih =>
        rw [split_nodes_delimiter]
        rcases List.mem_cons.mp hmem with rfl | hmem2
        · rw [split_node_delimiter_error d ds tt bad htext hodd]
          rfl
        · cases hfirst : split_node_delimiter (d :: ds) tt n with
          | error e =>
            have he := split_node_delimiter_error_msg hfirst
            subst he
            rfl
          | ok v =>
            simp only [hfirst, bind, Except.bind, ih hmem2]
  · simp [text_to_textnodes, split_nodes_delimiter, split_node_delimiter, pySplit, splitOnGo,
      startsWith, sectionsToNodes, bind, Except.bind, pure, Except.pure]

theorem c4_witness :
    ((⟨("a **b").data, TextType.TEXT, none⟩ : TextNode).textType = TextType.TEXT ∧
      countOcc (("**").data) ("a **b").data % 2 = 1) ∧
    split_nodes_delimiter [⟨("a **b").data, TextType.TEXT, none⟩] (("**").data) TextType.BOLD =
      .error ("Invalid markdown: no closing delimiter found") :=
  ⟨⟨rfl, by simp [countOcc, countOccGo, startsWith]⟩,
    (c4_unclosed_delimiter_error [⟨("a **b").data, TextType.TEXT, none⟩] (("**").data)
      TextType.BOLD ⟨⟨("a **b").data, TextType.TEXT, none⟩, List.mem_cons_self _ _,
        rfl, by simp [countOcc, countOccGo, startsWith]⟩).1⟩

/-- C8: on `"![x](u1) and [y](u2)"` the resolver returns exactly
Image(x, u1), Plain(" and "), Link(y, u2); the image pass extracts the
image (consuming the `!`), and the link pattern — whose opening bracket
must not be preceded by `!` — extracts only the link, so the image is
never additionally matched as a link. -/
theorem c8_image_link_mix :
    text_to_textnodes (("![x](u1) and [y](u2)").data) =
      .ok [⟨("x").data, .IMAGE, some (("u1").data)⟩,
           ⟨(" and ").data, .TEXT, none⟩,
           ⟨("y").data, .LINK, some (("u2").data)⟩] ∧
    extract_markdown_images (("![x](u1) and [y](u2)").data) =
      [((("x").data), ("u1").data)] ∧
    extract_markdown_links (("![x](u1) and [y](u2)").data) =
      [((("y").data), ("u2").data)] := by
  refine ⟨?_, by decide, by decide⟩
  simp [text_to_textnodes, split_nodes_delimiter, split_node_delimiter, pySplit, splitOnGo,
    startsWith, sectionsToNodes, split_nodes_image, split_nodes_image_node,
    extract_markdown_images, extractImagesGo, scanLinkBody, split_images_go, pySplitOnce,
    splitOnceGo, split_nodes_link, split_nodes_link_node, extract_markdown_links,
    extractLinksGo, split_links_go, bind, Except.bind, pure, Except.pure,
    List.dropWhile, List.takeWhile]

/-- C6: a block classified Code builds — with no inline resolution and
no possibility of failure — a `pre` node holding a `code` node holding
one untagged leaf whose text is: the block's lines minus the first and
last, joined by newlines, with one trailing newline appended iff that
join is non-empty; the fenced two-line example serializes to
`<pre><code>line one\nline two\n</code></pre>`. -/
theorem c6_code_block_builder :
    (∀ block : Str,
      code_to_html_node block =
        HTMLNode.parent (some (("pre").data))
          (some [HTMLNode.parent (some (("code").data))
            (some [HTMLNode.leaf none
              (some (
                let body := List.intercalate (("\n").data)
                  (((pySplit block (("\n").data)).drop 1).dropLast)
                if body ≠ [] then body ++ ("\n").data else body)) []]) []]) []) ∧
    (∀ block : Str, block_to_block_type block = BlockType.CODE →
      block_to_html_node block = .ok (code_to_html_node block)) ∧
    toHtml (code_to_html_node (("```\nline one\nline two\n```").data)) =
      .ok (("<pre><code>line one\nline two\n</code></pre>").data) := by
  refine ⟨fun block => by simp [code_to_html_node, LeafNode, ParentNode],
    fun block hbt => by simp [block_to_html_node, hbt, pure, Except.pure], ?_⟩
  simp [code_to_html_node, pySplit, splitOnGo, startsWith, toHtml, childrenToHtml,
    props_to_html, LeafNode, ParentNode, List.intercalate, List.intersperse,
    bind, Except.bind, pure, Except.pure]

theorem c6_witness :
    block_to_block_type (("```\nline one\nline two\n```").data) = BlockType.CODE ∧
    block_to_html_node (("```\nline one\nline two\n```").data) =
      .ok (code_to_html_node (("```\nline one\nline two\n```").data)) :=
  ⟨by simp [block_to_block_type, heading_check, startsWith, List.range', endsWith],
    c6_code_block_builder.2.1 _
      (by simp [block_to_block_type, heading_check, startsWith, List.range', endsWith])⟩

/-- C2: a block beginning with `n` hashes (1 ≤ n ≤ 6) and a space
classifies as Heading, and its builder wraps the inline resolution of
the text after the hashes and the space in an `h{n}` parent; seven
hashes and a space classify as Paragraph instead. -/
theorem c2_heading_levels (n : Nat) (rest : Str) (h1 : 1 ≤ n) (h6 : n ≤ 6) :
    block_to_block_type (List.replicate n '#' ++ ' ' :: rest) = BlockType.HEADING ∧
    heading_to_html_node (List.replicate n '#' ++ ' ' :: rest) =
      Except.map
        (fun children => HTMLNode.parent (some (("h").data ++ natStr n)) (some children) [])
        (text_to_children rest) ∧
    ∀ rest7 : Str,
      block_to_block_type (List.replicate 7 '#' ++ ' ' :: rest7) = BlockType.PARAGRAPH := by
  refine ⟨?_, ?_, ?_⟩
  · interval_cases n <;>
      simp [block_to_block_type, heading_check, startsWith, List.range', List.replicate]
  · interval_cases n <;>
    · simp only [List.replicate, List.nil_append, List.cons_append]
      rw [heading_to_html_node]
      simp only [List.takeWhile_cons, decide_eq_true_eq, reduceIte, List.takeWhile_nil,
        List.length_cons, List.length_nil, List.drop_succ_cons, List.drop_zero]
      cases htc : text_to_children rest <;>
        simp [htc, Except.map, bind, Except.bind, pure, Except.pure, ParentNode]
  · intro rest7
    obtain ⟨t, ht⟩ := pySplit_single_head '\n' (List.replicate 7 '#' ++ ' ' :: rest7)
    simp only [List.replicate, List.nil_append, List.cons_append] at ht ⊢
    simp [block_to_block_type, heading_check, startsWith, List.range', ht,
      List.takeWhile_cons, ol_check, natStr_one]

theorem c2_witness :
    (1 ≤ 2 ∧ 2 ≤ 6) ∧
    block_to_block_type (List.replicate 2 '#' ++ ' ' :: ("x").data) = BlockType.HEADING :=
  ⟨by decide, (c2_heading_levels 2 (("x").data) (by decide) (by decide)).1⟩

/-- C3: `block_to_block_type` returns OrderedList iff every 0-indexed
line `i` of the block starts with the exact prefix `f"{i + 1}. "` —
numbering from 1, incrementing by exactly 1, no gaps — and a single
mismatch anywhere disqualifies the block: `"1. a\n3. b"` classifies as
Paragraph. -/
theorem c3_ordered_list_iff :
    (∀ block : Str,
      block_to_block_type block = BlockType.ORDERED_LIST ↔
        ∀ (i : Nat) (h : i < (pySplit block (("\n").data)).length),
          startsWith (natStr (i + 1) ++ (". ").data)
            ((pySplit block (("\n").data)).get ⟨i, h⟩) = true) ∧
    block_to_block_type (("1. a\n3. b").data) = BlockType.PARAGRAPH := by
  constructor
  · intro block
    constructor
    · intro hbt
      have hol : ol_check (pySplit block (("\n").data)) 0 = true := by
        by_contra hno
        simp only [block_to_block_type] at hbt
        split_ifs at hbt <;> simp_all
      have hq := (ol_check_iff _ 0).mp hol
      intro i h
      have h2 := hq i h
      simpa using h2
    · intro hall
      have hol : ol_check (pySplit block (("\n").data)) 0 = true := by
        rw [ol_check_iff]
        intro i h
        have := hall i h
        simpa using this
      obtain ⟨t, ht⟩ := pySplit_single_head '\n' block
      have hhead : startsWith (('1') :: ('.') :: (' ') :: [])
          (block.takeWhile fun c => decide (c ≠ '\n')) = true := by
        have hol2 := hol
        rw [ht, ol_check] at hol2
        have h0 := ((Bool.and_eq_true _ _).mp hol2).1
        simpa [natStr_one] using h0
      have hblock : startsWith (('1') :: ('.') :: (' ') :: []) block = true := by
        rw [startsWith_eq_true_iff] at hhead ⊢
        exact hhead.trans ⟨List.dropWhile (fun c => decide (c ≠ '\n')) block, List.takeWhile_append_dropWhile _ _⟩
      obtain ⟨u, hu⟩ := (startsWith_eq_true_iff _ _).mp hblock
      subst hu
      simp only [List.cons_append, List.nil_append] at ht hol ⊢
      simp only [block_to_block_type]
      rw [if_neg (by simp [heading_check, startsWith])]
      rw [if_neg (by simp [startsWith])]
      rw [if_neg (by rw [ht]; simp [List.takeWhile_cons, startsWith])]
      rw [if_neg (by rw [ht]; simp [List.takeWhile_cons, startsWith])]
      rw [if_pos hol]
  · simp [block_to_block_type, heading_check, startsWith, List.range', pySplit,
      splitOnGo, ol_check, endsWith, natStr, Nat.repr, Nat.toDigits, Nat.toDigitsCore,
      Nat.digitChar]

theorem c3_witness : block_to_block_type (("1. a").data) = BlockType.ORDERED_LIST := by
  refine (c3_ordered_list_iff.1 (("1. a").data)).mpr ?_
  intro i h
  match i, h with
  | 0, h => simp [pySplit, splitOnGo, startsWith, natStr_one]
  | i + 1, h =>
    exfalso
    simp [pySplit, splitOnGo, startsWith] at h

/-- C5: for text with no `**` occurrence and no `_`, `` ` ``, `\x5b`,
`\x5d`, `!` characters, `text_to_textnodes` returns exactly one `TEXT`
span equal to the text when it is non-empty, and the empty sequence
when it is empty. -/
theorem c5_plain_text_passthrough (text : Str)
    (hbold : ¬ (("**").data <:+: text))
    (hchars : ∀ c ∈ text, c ≠ '_' ∧ c ≠ '`' ∧ c ≠ '[' ∧ c ≠ ']' ∧ c ≠ '!') :
    text_to_textnodes text =
      .ok (if text = [] then [] else [⟨text, TextType.TEXT, none⟩]) := by
  have hnu : '_' ∉ text := fun hm => (hchars _ hm).1 rfl
  have hnb : '`' ∉ text := fun hm => (hchars _ hm).2.1 rfl
  have hnlb : '[' ∉ text := fun hm => (hchars _ hm).2.2.1 rfl
  have hnbang : '!' ∉ text := fun hm => (hchars _ hm).2.2.2.2 rfl
  have hsB : pySplit text (("**").data) = [text] := by
    have hdata : ("**").data = '*' :: '*' :: [] := rfl
    rw [hdata]
    exact pySplit_no_match (by simpa [hdata] using hbold)
  have hsI : pySplit text (("_").data) = [text] := by
    have hdata : ("_").data = '_' :: [] := rfl
    rw [hdata]
    exact pySplit_no_match fun hi => hnu (List.singleton_sublist.mp hi.sublist)
  have hsC : pySplit text (("`").data) = [text] := by
    have hdata : ("`").data = '`' :: [] := rfl
    rw [hdata]
    exact pySplit_no_match fun hi => hnb (List.singleton_sublist.mp hi.sublist)
  have hsec : ∀ tt : TextType,
      sectionsToNodes tt [text] 0 = if text = [] then [] else [⟨text, TextType.TEXT, none⟩] := by
    intro tt
    rw [sectionsToNodes, sectionsToNodes]
    by_cases hx : text = [] <;> simp [hx]
  by_cases hx : text = []
  · subst hx
    simp [text_to_textnodes, split_nodes_delimiter, split_node_delimiter, pySplit, splitOnGo,
      sectionsToNodes, split_nodes_image, split_nodes_link, split_nodes_image_node,
      split_nodes_link_node, extract_markdown_images, extract_markdown_links, extractImagesGo,
      extractLinksGo, bind, Except.bind, pure, Except.pure]
  · rw [if_neg hx]
    have hpass : ∀ (sep : Str) (tt : TextType), pySplit text sep = [text] →
        split_nodes_delimiter [⟨text, TextType.TEXT, none⟩] sep tt =
          .ok [⟨text, TextType.TEXT, none⟩] := by
      intro sep tt hsep
      have hnode : split_node_delimiter sep tt ⟨text, TextType.TEXT, none⟩ =
          .ok (sectionsToNodes tt [text] 0) := by
        simp only [split_node_delimiter, hsep]
        rw [if_neg (by simp)]
        rw [if_neg (by simp)]
      simp [split_nodes_delimiter, hnode, hsec, hx, bind, Except.bind, pure, Except.pure]
    have himg : split_nodes_image [⟨text, TextType.TEXT, none⟩] =
        [⟨text, TextType.TEXT, none⟩] := by
      simp [split_nodes_image, split_nodes_image_node, extract_markdown_images,
        extractImagesGo_eq_nil _ _ hnbang]
    have hlink : split_nodes_link [⟨text, TextType.TEXT, none⟩] =
        [⟨text, TextType.TEXT, none⟩] := by
      simp [split_nodes_link, split_nodes_link_node, extract_markdown_links,
        extractLinksGo_eq_nil _ _ _ hnlb]
    simp [text_to_textnodes, hpass _ _ hsB, hpass _ _ hsI, hpass _ _ hsC, himg, hlink,
      bind, Except.bind, pure, Except.pure]

theorem c5_witness :
    (¬ (("**").data <:+: ("hello world").data)) ∧
    text_to_textnodes (("hello world").data) =
      .ok (if ("hello world").data = [] then []
           else [⟨("hello world").data, TextType.TEXT, none⟩]) :=
  ⟨by decide, c5_plain_text_passthrough (("hello world").data) (by decide) (by decide)⟩

/-- C9: a markdown string consisting only of whitespace (including the
empty string) converts to a `div` parent with a present-but-empty
children sequence, which serializes to `<div></div>`; a parent whose
children sequence is absent (not merely empty) fails to serialize. -/
theorem c9_blank_document :
    (∀ md : Str, (∀ c ∈ md, isSpaceChar c = true) →
      markdown_to_html_node md = .ok (HTMLNode.parent (some (("div").data)) (some []) [])) ∧
    toHtml (HTMLNode.parent (some (("div").data)) (some []) []) =
      .ok (("<div></div>").data) ∧
    (∀ (tag : Str) (props : List (Str × Str)),
      toHtml (HTMLNode.parent (some tag) none props) =
        .error ("ParentNode requires children")) := by
  refine ⟨?_, ?_, ?_⟩
  · intro md hsp
    have hblocks : markdown_to_blocks md = [] := by
      rw [markdown_to_blocks_eq]
      rw [List.filter_eq_nil_iff]
      intro b hb
      simp only [List.mem_map] at hb
      obtain ⟨frag, hfrag, rfl⟩ := hb
      have hchars : ∀ c ∈ frag, isSpaceChar c = true := by
        intro c hc
        have hmem : frag ∈ splitOnGo '\n' ['\n'] md [] := hfrag
        have := splitOnGo_mem '\n' ['\n'] md [] frag hmem c hc
        simp only [List.reverse_nil, List.nil_append] at this
        exact hsp c this
      simp [pyStrip_eq_nil_of_all_space hchars]
    simp [markdown_to_html_node, hblocks, build_blocks, ParentNode,
      bind, Except.bind, pure, Except.pure]
  · simp [toHtml, childrenToHtml, props_to_html, bind, Except.bind, pure, Except.pure]
  · intro tag props
    rw [toHtml]

theorem c9_witness :
    markdown_to_html_node ((" \n\n \n \n\n").data) =
      .ok (HTMLNode.parent (some (("div").data)) (some []) []) :=
  c9_blank_document.1 ((" \n\n \n \n\n").data) (by decide)

/-! ### Serializability of every node the converter builds -/

theorem toHtml_leaf_ok (tag : Option Str) (v : Str) (props : List (Str × Str)) :
    ∃ s, toHtml (.leaf tag (some v) props) = .ok s := by
  cases tag with
  | none => exact ⟨v, by simp [toHtml]⟩
  | some t =>
    exact ⟨'<' :: t ++ props_to_html props ++ '>' :: v ++ '<' :: '/' :: t ++ ['>'],
      by simp [toHtml]⟩

theorem text_node_to_html_node_ok (tn : TextNode) :
    ∃ s, toHtml (text_node_to_html_node tn) = .ok s := by
  cases htt : tn.textType <;>
    simp only [text_node_to_html_node, htt, LeafNode] <;>
    exact toHtml_leaf_ok _ _ _

theorem childrenToHtml_ok : ∀ {cs : List HTMLNode},
    (∀ c ∈ cs, ∃ s, toHtml c = .ok s) → ∃ s, childrenToHtml cs = .ok s := by
  intro cs
  induction cs with
  | nil => exact fun _ => ⟨[], by simp [childrenToHtml]⟩
  | cons c rest ih =>
    intro h
    obtain ⟨s1, hs1⟩ := h c (List.mem_cons_self c rest)
    obtain ⟨s2, hs2⟩ := ih fun x hx => h x (List.mem_cons_of_mem c hx)
    exact ⟨s1 ++ s2, by simp [childrenToHtml, hs1, hs2, bind, Except.bind, pure, Except.pure]⟩

theorem toHtml_parent_ok {tag : Str} {cs : List HTMLNode} {props : List (Str × Str)}
    (h : ∀ c ∈ cs, ∃ s, toHtml c = .ok s) :
    ∃ s, toHtml (HTMLNode.parent (some tag) (some cs) props) = .ok s := by
  obtain ⟨inner, hin⟩ := childrenToHtml_ok h
  exact ⟨'<' :: tag ++ props_to_html props ++ '>' :: inner ++ '<' :: '/' :: tag ++ ['>'],
    by simp [toHtml, hin, bind, Except.bind, pure, Except.pure]⟩

theorem text_to_children_ok {t : Str} {cs : List HTMLNode}
    (h : text_to_children t = .ok cs) : ∀ c ∈ cs, ∃ s, toHtml c = .ok s := by
  simp only [text_to_children] at h
  cases htn : text_to_textnodes t with
  | error e => rw [htn] at h; simp [bind, Except.bind] at h
  | ok tns =>
    rw [htn] at h
    simp only [bind, Except.bind, pure, Except.pure, Except.ok.injEq] at h
    subst h
    intro c hc
    obtain ⟨tn, _, rfl⟩ := List.mem_map.mp hc
    exact text_node_to_html_node_ok tn

theorem paragraph_to_html_node_ok {b : Str} {n : HTMLNode}
    (h : paragraph_to_html_node b = .ok n) : ∃ s, toHtml n = .ok s := by
  simp only [paragraph_to_html_node] at h
  cases htc : text_to_children (List.intercalate ((" ").data) (pySplit b (("\n").data))) with
  | error e => rw [htc] at h; simp [bind, Except.bind] at h
  | ok cs =>
    rw [htc] at h
    simp only [bind, Except.bind, pure, Except.pure, Except.ok.injEq, ParentNode] at h
    subst h
    exact toHtml_parent_ok (text_to_children_ok htc)

theorem heading_to_html_node_ok {b : Str} {n : HTMLNode}
    (h : heading_to_html_node b = .ok n) : ∃ s, toHtml n = .ok s := by
  simp only [heading_to_html_node] at h
  cases htc : text_to_children
      (b.drop ((b.takeWhile fun c => decide (c = '#')).length + 1)) with
  | error e => rw [htc] at h; simp [bind, Except.bind] at h
  | ok cs =>
    rw [htc] at h
    simp only [bind, Except.bind, pure, Except.pure, Except.ok.injEq, ParentNode] at h
    subst h
    exact toHtml_parent_ok (text_to_children_ok htc)

theorem quote_to_html_node_ok {b : Str} {n : HTMLNode}
    (h : quote_to_html_node b = .ok n) : ∃ s, toHtml n = .ok s := by
  simp only [quote_to_html_node] at h
  cases htc : text_to_children
      (List.intercalate ((" ").data)
        ((pySplit b (("\n").data)).map fun line =>
          if startsWith ((">").data) line then (line.drop 1).dropWhile isSpaceChar
          else line)) with
  | error e => rw [htc] at h; simp [bind, Except.bind] at h
  | ok cs =>
    rw [htc] at h
    simp only [bind, Except.bind, pure, Except.pure, Except.ok.injEq, ParentNode] at h
    subst h
    exact toHtml_parent_ok (text_to_children_ok htc)

theorem code_to_html_node_ok (b : Str) : ∃ s, toHtml (code_to_html_node b) = .ok s := by
  simp only [code_to_html_node, ParentNode, LeafNode]
  apply toHtml_parent_ok
  intro c hc
  simp only [List.mem_singleton] at hc
  subst hc
  apply toHtml_parent_ok
  intro c hc
  simp only [List.mem_singleton] at hc
  subst hc
  exact toHtml_leaf_ok _ _ _

theorem ul_items_ok : ∀ (ls : List Str) (items : List HTMLNode),
    ul_items ls = .ok items → ∀ n ∈ items, ∃ s, toHtml n = .ok s := by
  intro ls
  induction ls with
  | nil =>
    intro items h n hn
    simp only [ul_items, pure, Except.pure, Except.ok.injEq] at h
    subst h
    cases hn
  | cons l rest ih =>
    intro items h n hn
    simp only [ul_items] at h
    cases htc : text_to_children (l.drop 2) with
    | error e => rw [htc] at h; simp [bind, Except.bind] at h
    | ok cs =>
      rw [htc] at h
      cases hrest : ul_items rest with
      | error e => rw [hrest] at h; simp [bind, Except.bind] at h
      | ok more =>
        rw [hrest] at h
        simp only [bind, Except.bind, pure, Except.pure, Except.ok.injEq, ParentNode] at h
        subst h
        rcases List.mem_cons.mp hn with rfl | hn2
        · exact toHtml_parent_ok (text_to_children_ok htc)
        · exact ih more hrest n hn2

theorem ol_items_ok : ∀ (ls : List Str) (i : Nat) (items : List HTMLNode),
    ol_items ls i = .ok items → ∀ n ∈ items, ∃ s, toHtml n = .ok s := by
  intro ls
  induction ls with
  | nil =>
    intro i items h n hn
    simp only [ol_items, pure, Except.pure, Except.ok.injEq] at h
    subst h
    cases hn
  | cons l rest ih =>
    intro i items h n hn
    simp only [ol_items] at h
    cases htc : text_to_children (l.drop (natStr (i + 1) ++ (". ").data).length) with
    | error e => rw [htc] at h; simp [bind, Except.bind] at h
    | ok cs =>
      rw [htc] at h
      cases hrest : ol_items rest (i + 1) with
      | error e => rw [hrest] at h; simp [bind, Except.bind] at h
      | ok more =>
        rw [hrest] at h
        simp only [bind, Except.bind, pure, Except.pure, Except.ok.injEq, ParentNode] at h
        subst h
        rcases List.mem_cons.mp hn with rfl | hn2
        · exact toHtml_parent_ok (text_to_children_ok htc)
        · exact ih (i + 1) more hrest n hn2

theorem unordered_list_to_html_node_ok {b : Str} {n : HTMLNode}
    (h : unordered_list_to_html_node b = .ok n) : ∃ s, toHtml n = .ok s := by
  simp only [unordered_list_to_html_node] at h
  cases hit : ul_items (pySplit b (("\n").data)) with
  | error e => rw [hit] at h; simp [bind, Except.bind] at h
  | ok items =>
    rw [hit] at h
    simp only [bind, Except.bind, pure, Except.pure, Except.ok.injEq, ParentNode] at h
    subst h
    exact toHtml_parent_ok (ul_items_ok _ _ hit)

theorem ordered_list_to_html_node_ok {b : Str} {n : HTMLNode}
    (h : ordered_list_to_html_node b = .ok n) : ∃ s, toHtml n = .ok s := by
  simp only [ordered_list_to_html_node] at h
  cases hit : ol_items (pySplit b (("\n").data)) 0 with
  | error e => rw [hit] at h; simp [bind, Except.bind] at h
  | ok items =>
    rw [hit] at h
    simp only [bind, Except.bind, pure, Except.pure, Except.ok.injEq, ParentNode] at h
    subst h
    exact toHtml_parent_ok (ol_items_ok _ _ _ hit)

theorem block_to_html_node_ok {b : Str} {n : HTMLNode}
    (h : block_to_html_node b = .ok n) : ∃ s, toHtml n = .ok s := by
  rw [block_to_html_node] at h
  cases hbt : block_to_block_type b <;> rw [hbt] at h
  case PARAGRAPH => exact paragraph_to_html_node_ok h
  case HEADING => exact heading_to_html_node_ok h
  case CODE =>
    simp only [pure, Except.pure, Except.ok.injEq] at h
    subst h
    exact code_to_html_node_ok b
  case QUOTE => exact quote_to_html_node_ok h
  case UNORDERED_LIST => exact unordered_list_to_html_node_ok h
  case ORDERED_LIST => exact ordered_list_to_html_node_ok h

theorem build_blocks_ok : ∀ (bs : List Str) (ns : List HTMLNode),
    build_blocks bs = .ok ns → ∀ n ∈ ns, ∃ s, toHtml n = .ok s := by
  intro bs
  induction bs with
  | nil =>
    intro ns h n hn
    simp only [build_blocks, pure, Except.pure, Except.ok.injEq] at h
    subst h
    cases hn
  | cons b rest ih =>
    intro ns h n hn
    simp only [build_blocks] at h
    cases hb : block_to_html_node b with
    | error e => rw [hb] at h; simp [bind, Except.bind] at h
    | ok node =>
      rw [hb] at h
      cases hrest : build_blocks rest with
      | error e => rw [hrest] at h; simp [bind, Except.bind] at h
      | ok more =>
        rw [hrest] at h
        simp only [bind, Except.bind, pure, Except.pure, Except.ok.injEq] at h
        subst h
        rcases List.mem_cons.mp hn with rfl | hn2
        · exact block_to_html_node_ok hb
        · exact ih more hrest n hn2

/-- C10: whenever `markdown_to_html_node` returns normally, the
returned tree satisfies every serialization precondition — each parent
has a present tag and a present (possibly empty) children sequence and
each leaf has a present value — so serializing it never fails. -/
theorem c10_conversion_serializes (md : Str) (node : HTMLNode)
    (h : markdown_to_html_node md = .ok node) : ∃ s, toHtml node = .ok s := by
  simp only [markdown_to_html_node] at h
  cases hb : build_blocks (markdown_to_blocks md) with
  | error e => rw [hb] at h; simp [bind, Except.bind] at h
  | ok ns =>
    rw [hb] at h
    simp only [bind, Except.bind, pure, Except.pure, Except.ok.injEq, ParentNode] at h
    subst h
    exact toHtml_parent_ok (build_blocks_ok _ _ hb)

theorem c10_witness :
    markdown_to_html_node (("").data) =
      .ok (HTMLNode.parent (some (("div").data)) (some []) []) ∧
    ∃ s, toHtml (HTMLNode.parent (some (("div").data)) (some []) []) = .ok s := by
  have hok : markdown_to_html_node (("").data) =
      .ok (HTMLNode.parent (some (("div").data)) (some []) []) := by
    simp [markdown_to_html_node, markdown_to_blocks, pySplit, splitOnGo, pyStrip,
      isSpaceChar, build_blocks, ParentNode, bind, Except.bind, pure, Except.pure]
  exact ⟨hok, c10_conversion_serializes (("").data) _ hok⟩
